import Mathlib

/- Verification development for the SMS-forwarding bot in src/bot.py.

   The development shallowly embeds the bot's data model and the two
   correctness-critical parts of the program: the poll-dedup-filter-forward
   pipeline (`poll_sms`, lines 152-207) and the conversation state machine
   that mutates the persisted configuration (`handle_pending_input`,
   lines 278-371, together with `start_forwarding`/`stop_forwarding`).

   Python strings are modelled as Lean `String`; Python's arbitrary-precision
   integers as `Int`.  Python string helpers used by the bot (`str.strip`,
   `str.split`, `str.replace`, `str.lower`, the substring test `in`,
   `int(...)`) are re-implemented over `List Char` so that everything is
   executable and kernel-reducible.  Effects are made explicit: the Telegram
   send call becomes a boolean outcome oracle (its exception is swallowed by
   the `try/except` in the source), and each `state.update` call is recorded
   in the result of the modelled operation. -/

/-- A message as returned by the SMS API (src/bot.py line 142-149): a JSON
object with an optional integer `id`, plus opaque text fields.  Missing
fields are modelled by `Option`/defaults exactly where the code uses
`msg.get(...)`. -/
structure Message where
  id : Option Int
  content : String
  number : String
  simnum : String
  time : String
deriving DecidableEq

/-- The persisted configuration record (dataclass `BotConfig`,
src/bot.py lines 58-66). -/
structure BotConfig where
  sms_tokens : List String
  active_sms_token : Option String
  target_chat_id : Option Int
  keywords : List String
  last_seen_id : Option Int
  poll_interval : Int
  forwarding_enabled : Bool
deriving DecidableEq

/-- The default configuration (the dataclass field defaults). -/
def emptyConfig : BotConfig :=
  { sms_tokens := []
    active_sms_token := none
    target_chat_id := none
    keywords := []
    last_seen_id := none
    poll_interval := 5
    forwarding_enabled := false }

/-- Python `str.lower()` restricted to the per-character case mapping
(ASCII-faithful). -/
def lowerStr (s : String) : String :=
  String.mk (s.toList.map Char.toLower)

/-- Python `str.strip()`: drop whitespace from both ends. -/
def pyStrip (cs : List Char) : List Char :=
  ((cs.dropWhile Char.isWhitespace).reverse.dropWhile Char.isWhitespace).reverse

/-- `str.strip()` on `String`. -/
def stripStr (s : String) : String :=
  String.mk (pyStrip s.toList)

/-- `bs.startsWith as` for char lists: used to model Python's substring
test `needle in haystack`. -/
def listStarts : List Char → List Char → Bool
  | [], _ => true
  | _ :: _, [] => false
  | a :: as, b :: bs => a == b && listStarts as bs

/-- Python's substring test `needle in haystack` on char lists. -/
def containsSub (haystack needle : List Char) : Bool :=
  match haystack with
  | [] => needle.isEmpty
  | _ :: rest => listStarts needle haystack || containsSub rest needle

/-- Value of a nonempty all-digit character run, Python `int` digits. -/
def digitsVal (cs : List Char) : Option Nat :=
  if cs.isEmpty || !(cs.all Char.isDigit) then none
  else some (cs.foldl (fun acc c => acc * 10 + (c.toNat - 48)) 0)

/-- Python `int(s)` on an already-stripped string: optional sign followed by
digits, `none` when the call would raise `ValueError`. -/
def pyInt (cs : List Char) : Option Int :=
  match cs with
  | '+' :: rest => (digitsVal rest).map Int.ofNat
  | '-' :: rest => (digitsVal rest).map fun n => -(Int.ofNat n)
  | _ => (digitsVal cs).map Int.ofNat

/- ---------------------------------------------------------------------
   The dedup step of a poll tick (src/bot.py lines 165-184).
   --------------------------------------------------------------------- -/

/-- The sort key used at line 168: `item.get("id", 0)`. -/
def sortKey (m : Message) : Int :=
  m.id.getD 0

instance : DecidableRel fun a b : Message => sortKey a ≤ sortKey b :=
  fun _ _ => Int.decLe _ _

/-- `messages.sort(key=lambda item: item.get("id", 0))` — a stable sort by
the id key (line 168). -/
def sortBatch (msgs : List Message) : List Message :=
  msgs.insertionSort fun a b => sortKey a ≤ sortKey b

/-- The per-message qualification test of lines 170-175: drop messages with
no `id`; keep a message when the mark is unset or its id exceeds the mark. -/
def qualifies (lastSeenId : Option Int) (m : Message) : Bool :=
  match m.id, lastSeenId with
  | none, _ => false
  | some _, none => true
  | some i, some h => h < i

/-- `new_messages` of lines 168-175: sort the batch, then keep the
qualifying messages. -/
def selectNew (msgs : List Message) (lastSeenId : Option Int) : List Message :=
  (sortBatch msgs).filter (qualifies lastSeenId)

/-- The running `last_seen` accumulator of lines 181-184:
start from `config.last_seen_id or 0` and take
`last_seen = max(last_seen, msg.get("id", last_seen))` over the processed
messages. -/
def pollFold (a : Int) (l : List Message) : Int :=
  l.foldl (fun acc m => max acc (m.id.getD acc)) a

/-- The high-water mark after the dedup step of one tick: unchanged when no
message qualifies (the early return at line 177-178), otherwise the final
`last_seen` value persisted at line 207. -/
def pollUpdatedMark (lastSeenId : Option Int) (msgs : List Message) : Option Int :=
  let sel := selectNew msgs lastSeenId
  if sel.isEmpty then lastSeenId
  else some (pollFold (lastSeenId.getD 0) sel)

/- ---------------------------------------------------------------------
   Keyword matching (src/bot.py lines 180, 186).
   --------------------------------------------------------------------- -/

/-- The forwarding decision of line 186 given the pre-lowered keyword list
`kws` (line 180): forward when the list is empty or some keyword occurs in
the lowered content. -/
def anyKwHit (kws : List String) (content : String) : Bool :=
  kws.isEmpty || kws.any fun kw => containsSub (lowerStr content).toList kw.toList

/-- The keyword matcher as applied to the configured keyword list:
line 180 lowers every configured keyword, line 186 tests them against the
lowered content. -/
def kwMatch (content : String) (keywords : List String) : Bool :=
  anyKwHit (keywords.map lowerStr) content

/- ---------------------------------------------------------------------
   The full poll tick (src/bot.py lines 152-207).
   --------------------------------------------------------------------- -/

/-- Truthiness of an optional Python string (`None` and `""` are falsy). -/
def pyTruthyStr : Option String → Bool
  | none => false
  | some s => !s.isEmpty

/-- Truthiness of an optional Python integer (`None` and `0` are falsy). -/
def pyTruthyInt : Option Int → Bool
  | none => false
  | some i => i != 0

/-- The guard of line 156:
`config.forwarding_enabled and config.active_sms_token and config.target_chat_id`. -/
def preconditionsOk (config : BotConfig) : Bool :=
  config.forwarding_enabled && pyTruthyStr config.active_sms_token
    && pyTruthyInt config.target_chat_id

/-- Result of one poll tick: the forward attempts in order, each with the
outcome of its Telegram send call (the exception at lines 204-205 is caught,
so the outcome influences nothing else), and the list of
`state.update(last_seen_id=...)` calls the tick performs. -/
structure TickResult where
  outcomes : List (Message × Bool)
  persists : List Int
deriving DecidableEq

/-- The body of the `for msg in new_messages` loop (lines 183-205), acting
on the accumulator `(last_seen, attempts so far)`.  `kws` is the lowered
keyword list of line 180, `sendOk` the outcome oracle for the Telegram send
call. -/
def tickStep (kws : List String) (sendOk : Message → Bool)
    (acc : Int × List (Message × Bool)) (msg : Message) : Int × List (Message × Bool) :=
  let lastSeen := max acc.1 (msg.id.getD acc.1)
  if !kws.isEmpty && !(kws.any fun kw => containsSub (lowerStr msg.content).toList kw.toList) then
    (lastSeen, acc.2)
  else
    (lastSeen, acc.2 ++ [(msg, sendOk msg)])

/-- One poll tick after a successful fetch returning `messages`
(src/bot.py lines 152-207, with the fetch of lines 159-163 already
resolved).  Mirrors the early returns at lines 156-157, 165-166 and
177-178, then the loop and the single `state.update` at line 207. -/
def pollTick (config : BotConfig) (messages : List Message)
    (sendOk : Message → Bool) : TickResult :=
  if !(preconditionsOk config) then { outcomes := [], persists := [] }
  else if messages.isEmpty then { outcomes := [], persists := [] }
  else
    let newMessages := selectNew messages config.last_seen_id
    if newMessages.isEmpty then { outcomes := [], persists := [] }
    else
      let kws := config.keywords.map lowerStr
      let r := newMessages.foldl (tickStep kws sendOk) (config.last_seen_id.getD 0, [])
      { outcomes := r.2, persists := [r.1] }

/- ---------------------------------------------------------------------
   The conversation state machine (src/bot.py lines 232-371).
   --------------------------------------------------------------------- -/

/-- The pending-action slot `context.user_data["mode"]`: one variant per
string value the code stores there. -/
inductive Mode where
  | addSmsToken
  | setChatId
  | setKeywords
  | selectSmsToken
  | deleteSmsToken
deriving DecidableEq

/-- The reserved return-to-menu button label (src/bot.py line 55). -/
def returnMenuText : String := "⬅️ 返回主菜单"

/-- Result of one `handle_pending_input` call: the configuration after the
call and the remaining pending-action slot (`none` once the mode has been
popped). -/
structure PendingResult where
  config : BotConfig
  mode : Option Mode
deriving DecidableEq

/-- `resolve_chat_id` (src/bot.py lines 270-275): strip, resolve handles
beginning with `@` through the external chat transport (the oracle
`resolveHandle`, which may fail like `bot.get_chat`), otherwise Python
`int(...)`. -/
def resolveChatId (resolveHandle : String → Except String Int)
    (value : String) : Except String Int :=
  match pyStrip value.toList with
  | '@' :: rest => resolveHandle (String.mk ('@' :: rest))
  | cs =>
    match pyInt cs with
    | some n => Except.ok n
    | none => Except.error "ValueError"

/-- Python `s.split(",")` on char lists: the groups between commas,
including empty groups. -/
def splitCommas : List Char → List (List Char)
  | [] => [[]]
  | c :: rest =>
    match splitCommas rest with
    | [] => [[]]
    | g :: gs => if c = ',' then [] :: g :: gs else (c :: g) :: gs

/-- The keyword-list parser of lines 316-317: replace the full-width comma,
split on commas, strip each part and drop the empty ones. -/
def parseKeywords (text : String) : List String :=
  let normalized := text.toList.map fun c => if c = '，' then ',' else c
  ((splitCommas normalized).map pyStrip).filterMap
    fun p => if p.isEmpty then none else some (String.mk p)

/-- `handle_pending_input` (src/bot.py lines 278-371) as a function from the
pending mode, the (already stripped, line 242) operator text and the current
configuration to the new configuration and remaining mode.  `resolveHandle`
is the external chat-handle resolver used by the `set_chat_id` branch. -/
def handlePendingInput (mode : Mode) (text : String) (config : BotConfig)
    (resolveHandle : String → Except String Int) : PendingResult :=
  match mode with
  | Mode.addSmsToken =>
    let token := stripStr text
    if token.isEmpty then { config := config, mode := some Mode.addSmsToken }
    else
      let tokens :=
        if config.sms_tokens.contains token then config.sms_tokens
        else config.sms_tokens ++ [token]
      { config := { config with sms_tokens := tokens, active_sms_token := some token }
        mode := none }
  | Mode.setChatId =>
    match resolveChatId resolveHandle text with
    | Except.error _ => { config := config, mode := some Mode.setChatId }
    | Except.ok chatId =>
      { config := { config with target_chat_id := some chatId }, mode := none }
  | Mode.setKeywords =>
    { config := { config with keywords := parseKeywords text }, mode := none }
  | Mode.selectSmsToken =>
    if text == returnMenuText then { config := config, mode := none }
    else if !(config.sms_tokens.contains text) then
      { config := config, mode := some Mode.selectSmsToken }
    else
      { config := { config with active_sms_token := some text }, mode := none }
  | Mode.deleteSmsToken =>
    if text == returnMenuText then { config := config, mode := none }
    else if !(config.sms_tokens.contains text) then
      { config := config, mode := some Mode.deleteSmsToken }
    else
      let tokens := config.sms_tokens.filter fun t => t != text
      let active :=
        if config.active_sms_token == some text then tokens.head?
        else config.active_sms_token
      { config := { config with sms_tokens := tokens, active_sms_token := active }
        mode := none }

/- ---------------------------------------------------------------------
   The configuration-mutating operations, as a single step type.
   --------------------------------------------------------------------- -/

/-- One operation that may mutate the persisted configuration: a pending
free-text input (`handle_pending_input`, all five modes), a poll tick with
a successfully fetched batch and a send-outcome oracle, or the start/stop
commands (src/bot.py lines 426-467). -/
inductive Op where
  | pending (mode : Mode) (text : String) (resolveHandle : String → Except String Int)
  | tick (messages : List Message) (sendOk : Message → Bool)
  | startForwarding
  | stopForwarding

/-- Apply one operation to the configuration.  A tick applies each of its
`state.update(last_seen_id=...)` calls in order; `start_forwarding` checks
the token/chat-id truthiness guards of lines 429-434 before setting
`forwarding_enabled`; `stop_forwarding` always clears it (line 466). -/
def applyOp (config : BotConfig) : Op → BotConfig
  | Op.pending m t r => (handlePendingInput m t config r).config
  | Op.tick msgs f =>
    (pollTick config msgs f).persists.foldl
      (fun c v => { c with last_seen_id := some v }) config
  | Op.startForwarding =>
    if pyTruthyStr config.active_sms_token && pyTruthyInt config.target_chat_id then
      { config with forwarding_enabled := true }
    else config
  | Op.stopForwarding => { config with forwarding_enabled := false }

/-- The token invariant: the active source token, when set, is a member of
the token list. -/
def tokenInv (c : BotConfig) : Bool :=
  match c.active_sms_token with
  | none => true
  | some t => c.sms_tokens.contains t

/- ---------------------------------------------------------------------
   Helper lemmas.
   --------------------------------------------------------------------- -/

theorem contains_iff_mem {l : List String} {a : String} :
    l.contains a = true ↔ a ∈ l :=
  List.elem_iff

theorem le_pollFold (l : List Message) : ∀ a : Int, a ≤ pollFold a l := by
  induction l with
  | nil => intro a; exact le_refl a
  | cons x rest ih =>
    intro a
    exact le_trans (le_max_left a (x.id.getD a)) (ih (max a (x.id.getD a)))

theorem mem_le_pollFold {m : Message} {i : Int} (hm : m.id = some i) :
    ∀ l : List Message, m ∈ l → ∀ a : Int, i ≤ pollFold a l := by
  intro l
  induction l with
  | nil => intro h; cases h
  | cons x rest ih =>
    intro hmem a
    rcases List.mem_cons.mp hmem with heq | htail
    · subst heq
      have h2 : m.id.getD a = i := by rw [hm]; rfl
      have : i ≤ pollFold (max a (m.id.getD a)) rest := by
        rw [h2]
        exact le_trans (le_max_right a i) (le_pollFold rest (max a i))
      exact this
    · exact ih htail (max a (x.id.getD a))

theorem pollFold_eq_foldl_max (l : List Message) :
    (∀ m ∈ l, m.id ≠ none) →
      ∀ a : Int, pollFold a l = (l.filterMap Message.id).foldl max a := by
  induction l with
  | nil => intro _ a; rfl
  | cons x rest ih =>
    intro hall a
    have hx : x.id ≠ none := hall x (List.mem_cons_self x rest)
    rcases hid : x.id with _ | i
    · exact absurd hid hx
    · have hfm : (x :: rest).filterMap Message.id = i :: rest.filterMap Message.id := by
        simp [List.filterMap_cons, hid]
      have hrest : ∀ m ∈ rest, m.id ≠ none := fun m hm => hall m (List.mem_cons_of_mem _ hm)
      have hfold : pollFold a (x :: rest) = pollFold (max a i) rest := by
        show pollFold (max a (x.id.getD a)) rest = _
        rw [hid]
        rfl
      rw [hfm, hfold, ih hrest (max a i)]
      rfl

theorem qualifies_eq_false_of_id_none {h : Option Int} {m : Message}
    (hid : m.id = none) : qualifies h m = false := by
  unfold qualifies
  rw [hid]

theorem qualifies_none_of_id_some {m : Message} {i : Int} (hid : m.id = some i) :
    qualifies none m = true := by
  unfold qualifies
  rw [hid]

theorem qualifies_some_of_id_some {m : Message} {i v : Int} (hid : m.id = some i) :
    qualifies (some v) m = decide (v < i) := by
  unfold qualifies
  rw [hid]

theorem selectNew_perm (msgs : List Message) (h : Option Int) :
    (selectNew msgs h).Perm (msgs.filter (qualifies h)) :=
  (List.perm_insertionSort _ msgs).filter _

theorem selectNew_pairwise (msgs : List Message) (h : Option Int) :
    List.Pairwise (fun a b => sortKey a ≤ sortKey b) (selectNew msgs h) := by
  haveI : IsTotal Message fun a b => sortKey a ≤ sortKey b := ⟨fun a b => le_total _ _⟩
  haveI : IsTrans Message fun a b => sortKey a ≤ sortKey b :=
    ⟨fun _ _ _ hab hbc => le_trans hab hbc⟩
  exact List.Pairwise.sublist (List.filter_sublist _) (List.sorted_insertionSort _ msgs)

theorem selectNew_id_ne_none {msgs : List Message} {h : Option Int} {m : Message}
    (hm : m ∈ selectNew msgs h) : m.id ≠ none := by
  intro hnone
  have hq := (List.mem_filter.mp hm).2
  rw [qualifies_eq_false_of_id_none hnone] at hq
  exact Bool.false_ne_true hq

theorem pollUpdatedMark_of_empty {msgs : List Message} {h : Option Int}
    (he : selectNew msgs h = []) : pollUpdatedMark h msgs = h := by
  unfold pollUpdatedMark
  rw [he]
  rfl

theorem pollUpdatedMark_of_ne {msgs : List Message} {h : Option Int}
    (hne : selectNew msgs h ≠ []) :
    pollUpdatedMark h msgs = some (pollFold (h.getD 0) (selectNew msgs h)) := by
  unfold pollUpdatedMark
  have : (selectNew msgs h).isEmpty = false := by
    rcases he : selectNew msgs h with _ | ⟨x, xs⟩
    · exact absurd he hne
    · rfl
  simp only [this, Bool.false_eq_true, if_false]

/- ---------------------------------------------------------------------
   C1 and C2: the dedup step.
   --------------------------------------------------------------------- -/

/-- C1 (amended): the dedup step of a poll tick selects exactly the
messages whose id qualifies (mark unset or id greater than the mark),
in ascending-id order, drops messages lacking an id, and the updated mark
it persists is the maximum of the qualifying ids and the current mark with
an unset mark treated as 0 (`config.last_seen_id or 0`, line 181);
the mark is unchanged when no message qualifies. -/
theorem C1_dedup_step (msgs : List Message) (h : Option Int) :
    (selectNew msgs h).Perm (msgs.filter (qualifies h)) ∧
    List.Pairwise (fun a b => sortKey a ≤ sortKey b) (selectNew msgs h) ∧
    (∀ m ∈ selectNew msgs h, m.id ≠ none) ∧
    (selectNew msgs h = [] → pollUpdatedMark h msgs = h) ∧
    (selectNew msgs h ≠ [] →
      pollUpdatedMark h msgs
        = some (((selectNew msgs h).filterMap Message.id).foldl max (h.getD 0))) := by
  refine ⟨selectNew_perm msgs h, selectNew_pairwise msgs h,
    fun m hm => selectNew_id_ne_none hm, fun he => pollUpdatedMark_of_empty he, fun hne => ?_⟩
  rw [pollUpdatedMark_of_ne hne]
  rw [pollFold_eq_foldl_max _ (fun m hm => selectNew_id_ne_none hm) (h.getD 0)]

/-- A batch used by the C1 witness: ids 101, 99, 103 against mark 100
(the scenario of the spec). -/
def msgOfId (i : Int) : Message :=
  { id := some i, content := "", number := "", simnum := "", time := "" }

/-- Witness for C1 at the spec's scenario: mark 100, batch with ids
[101, 99, 103]. -/
theorem C1_witness :
    selectNew [msgOfId 101, msgOfId 99, msgOfId 103] (some 100) ≠ [] ∧
    pollUpdatedMark (some 100) [msgOfId 101, msgOfId 99, msgOfId 103]
      = some (((selectNew [msgOfId 101, msgOfId 99, msgOfId 103] (some 100)).filterMap
          Message.id).foldl max ((some (100 : Int)).getD 0)) :=
  ⟨by decide, (C1_dedup_step [msgOfId 101, msgOfId 99, msgOfId 103] (some 100)).2.2.2.2 (by decide)⟩

/-- Counterexample to C1 as stated: with the mark unset and a single
qualifying message of id -1, the claim's formula gives -1 (the maximum id
over the qualifying messages), but the code persists 0, because line 181
initialises the running maximum with `config.last_seen_id or 0`. -/
theorem C1_counterexample :
    selectNew [msgOfId (-1)] none = [msgOfId (-1)] ∧
    [msgOfId (-1)].filterMap Message.id = [(-1 : Int)] ∧
    pollUpdatedMark none [msgOfId (-1)] = some 0 ∧
    pollUpdatedMark none [msgOfId (-1)] ≠ some (-1) := by
  refine ⟨by decide, by decide, by decide, by decide⟩

/-- C2: the dedup step is idempotent: selecting again with the updated
mark produced by a first run selects nothing. -/
theorem C2_select_idempotent (msgs : List Message) (h : Option Int) :
    selectNew msgs (pollUpdatedMark h msgs) = [] := by
  by_cases hsel : selectNew msgs h = []
  · rw [pollUpdatedMark_of_empty hsel]
    exact hsel
  · rw [pollUpdatedMark_of_ne hsel]
    unfold selectNew
    rw [List.filter_eq_nil_iff]
    intro m hm
    rcases hid : m.id with _ | i
    · rw [qualifies_eq_false_of_id_none hid]
      exact Bool.false_ne_true
    · rw [qualifies_some_of_id_some hid]
      simp only [decide_eq_true_eq, not_lt]
      by_cases hq : qualifies h m = true
      · have hmem : m ∈ selectNew msgs h := List.mem_filter.mpr ⟨hm, hq⟩
        exact mem_le_pollFold hid _ hmem _
      · rcases h with _ | v
        · exact absurd (qualifies_none_of_id_some hid) hq
        · have hle : i ≤ v := by
            rw [qualifies_some_of_id_some hid] at hq
            simpa [not_lt] using hq
          exact le_trans hle (le_pollFold _ _)

/- ---------------------------------------------------------------------
   C3: the keyword matcher.
   --------------------------------------------------------------------- -/

theorem listStarts_iff (n : List Char) :
    ∀ h : List Char, listStarts n h = true ↔ ∃ t, h = n ++ t := by
  induction n with
  | nil =>
    intro h
    simp [listStarts]
  | cons a as ih =>
    intro h
    cases h with
    | nil =>
      simp only [listStarts]
      constructor
      · intro hfalse
        exact absurd hfalse Bool.false_ne_true
      · rintro ⟨t, ht⟩
        exact absurd ht (List.cons_ne_nil a (as ++ t) ∘ Eq.symm)
    | cons b bs =>
      simp only [listStarts, Bool.and_eq_true, beq_iff_eq]
      constructor
      · rintro ⟨hab, hs⟩
        obtain ⟨t, ht⟩ := (ih bs).1 hs
        exact ⟨t, by rw [ht, hab]; rfl⟩
      · rintro ⟨t, ht⟩
        have ht' : b :: bs = a :: (as ++ t) := ht
        injection ht' with h1 h2
        exact ⟨h1.symm, (ih bs).2 ⟨t, h2⟩⟩

theorem containsSub_iff (n : List Char) :
    ∀ h : List Char, containsSub h n = true ↔ ∃ pre post, h = pre ++ n ++ post := by
  intro h
  induction h with
  | nil =>
    simp only [containsSub, List.isEmpty_iff]
    constructor
    · intro hn
      exact ⟨[], [], by rw [hn]; rfl⟩
    · rintro ⟨pre, post, hp⟩
      have := hp.symm
      rw [List.append_assoc, List.append_eq_nil] at this
      rw [List.append_eq_nil] at this
      exact this.2.1
  | cons c rest ih =>
    simp only [containsSub, Bool.or_eq_true]
    constructor
    · rintro (hpre | hrest)
      · obtain ⟨t, ht⟩ := (listStarts_iff n (c :: rest)).1 hpre
        exact ⟨[], t, by rw [ht]; rfl⟩
      · obtain ⟨pre, post, hp⟩ := ih.1 hrest
        exact ⟨c :: pre, post, by rw [hp]; rfl⟩
    · rintro ⟨pre, post, hp⟩
      cases pre with
      | nil =>
        left
        exact (listStarts_iff n (c :: rest)).2 ⟨post, by simpa using hp⟩
      | cons p ps =>
        right
        have hp' : c :: rest = p :: (ps ++ n ++ post) := by simpa using hp
        injection hp' with h1 h2
        exact ih.2 ⟨ps, post, h2⟩

/-- C3: the keyword match used to decide forwarding is true when the
keyword list is empty, and otherwise true iff some keyword, case-folded,
is a substring of the case-folded content. -/
theorem C3_keyword_match (C : String) (K : List String) :
    (K = [] → kwMatch C K = true) ∧
    (K ≠ [] →
      (kwMatch C K = true ↔
        ∃ k ∈ K, ∃ pre post, (lowerStr C).toList = pre ++ (lowerStr k).toList ++ post)) := by
  constructor
  · intro hK
    rw [hK]
    rfl
  · intro hK
    have hmap : (K.map lowerStr).isEmpty = false := by
      rcases K with _ | ⟨k, ks⟩
      · exact absurd rfl hK
      · rfl
    unfold kwMatch anyKwHit
    rw [hmap]
    simp only [Bool.false_or, List.any_eq_true, List.mem_map]
    constructor
    · rintro ⟨kw, ⟨k, hkK, hkkw⟩, hhit⟩
      refine ⟨k, hkK, ?_⟩
      rw [← hkkw] at hhit  -- hhit about kw; replace by lowerStr k
      exact (containsSub_iff (lowerStr k).toList (lowerStr C).toList).1 hhit
    · rintro ⟨k, hkK, pre, post, hsplit⟩
      exact ⟨lowerStr k, ⟨k, hkK, rfl⟩,
        (containsSub_iff (lowerStr k).toList (lowerStr C).toList).2 ⟨pre, post, hsplit⟩⟩

/-- Witness for C3: the empty keyword list matches, and "BAR" matches
content "a Bar b" through case folding. -/
theorem C3_witness :
    kwMatch "a Bar b" [] = true ∧ kwMatch "a Bar b" ["BAR"] = true := by
  constructor
  · exact (C3_keyword_match "a Bar b" []).1 rfl
  · exact ((C3_keyword_match "a Bar b" ["BAR"]).2 (by decide)).2
      ⟨"BAR", by decide, "a ".toList, " b".toList, by decide⟩

/- ---------------------------------------------------------------------
   The poll tick: fold characterisation, C6 and C10.
   --------------------------------------------------------------------- -/

theorem tickStep_eq (kws : List String) (f : Message → Bool)
    (acc : Int × List (Message × Bool)) (msg : Message) :
    tickStep kws f acc msg
      = (max acc.1 (msg.id.getD acc.1),
         acc.2 ++ (if anyKwHit kws msg.content = true then [(msg, f msg)] else [])) := by
  unfold tickStep anyKwHit
  cases he : kws.isEmpty <;>
    cases ha : kws.any fun kw => containsSub (lowerStr msg.content).toList kw.toList <;>
    simp [he, ha]

theorem tickStep_foldl (kws : List String) (f : Message → Bool) :
    ∀ (l : List Message) (a : Int) (acc : List (Message × Bool)),
      l.foldl (tickStep kws f) (a, acc)
        = (pollFold a l,
           acc ++ (l.filter fun m => anyKwHit kws m.content).map fun m => (m, f m)) := by
  intro l
  induction l with
  | nil => intro a acc; simp [pollFold]
  | cons x rest ih =>
    intro a acc
    show rest.foldl (tickStep kws f) (tickStep kws f (a, acc) x) = _
    rw [tickStep_eq]
    rw [ih (max a (x.id.getD a)) (acc ++ _)]
    have hfold : pollFold a (x :: rest) = pollFold (max a (x.id.getD a)) rest := rfl
    rw [hfold]
    cases hx : anyKwHit kws x.content <;>
      simp [hx, List.filter_cons, List.append_assoc]

theorem selectNew_nil (h : Option Int) : selectNew [] h = [] := rfl

theorem pollTick_eq (c : BotConfig) (msgs : List Message) (f : Message → Bool)
    (hpre : preconditionsOk c = true) (hsel : selectNew msgs c.last_seen_id ≠ []) :
    pollTick c msgs f
      = { outcomes := ((selectNew msgs c.last_seen_id).filter
            fun m => anyKwHit (c.keywords.map lowerStr) m.content).map fun m => (m, f m),
          persists := [pollFold (c.last_seen_id.getD 0) (selectNew msgs c.last_seen_id)] } := by
  have hmsgs : msgs.isEmpty = false := by
    rcases msgs with _ | ⟨x, xs⟩
    · exact absurd (selectNew_nil c.last_seen_id) hsel
    · rfl
  have hne : (selectNew msgs c.last_seen_id).isEmpty = false := by
    rcases he : selectNew msgs c.last_seen_id with _ | ⟨x, xs⟩
    · exact absurd he hsel
    · rfl
  unfold pollTick
  rw [hpre, hmsgs]
  simp only [Bool.not_true, Bool.false_eq_true, if_false, hne, tickStep_foldl,
    List.nil_append]

/-- C6: within one tick (preconditions met, at least one qualifying
message), the forward attempts are exactly the keyword-matching qualifying
messages in order, they do not depend on the individual send outcomes, the
tick performs exactly one `state.update(last_seen_id=...)`, and the
persisted mark is at least the id of every qualifying message — including
those whose forward failed. -/
theorem C6_forward_failures (c : BotConfig) (msgs : List Message) (f g : Message → Bool)
    (hpre : preconditionsOk c = true) (hsel : selectNew msgs c.last_seen_id ≠ []) :
    (pollTick c msgs f).outcomes.map Prod.fst
        = (selectNew msgs c.last_seen_id).filter (fun m => kwMatch m.content c.keywords) ∧
    (pollTick c msgs f).outcomes.map Prod.fst = (pollTick c msgs g).outcomes.map Prod.fst ∧
    (pollTick c msgs f).persists
        = [pollFold (c.last_seen_id.getD 0) (selectNew msgs c.last_seen_id)] ∧
    (∀ m ∈ selectNew msgs c.last_seen_id, ∀ i : Int, m.id = some i →
      ∀ w ∈ (pollTick c msgs f).persists, i ≤ w) := by
  have hmap : ∀ h : Message → Bool,
      (pollTick c msgs h).outcomes.map Prod.fst
        = (selectNew msgs c.last_seen_id).filter (fun m => kwMatch m.content c.keywords) := by
    intro h
    rw [pollTick_eq c msgs h hpre hsel]
    simp only [List.map_map]
    rw [show ((fun p : Message × Bool => p.1) ∘ fun m => (m, h m)) = id from rfl]
    rw [List.map_id]
    rfl
  refine ⟨hmap f, (hmap f).trans (hmap g).symm, ?_, ?_⟩
  · rw [pollTick_eq c msgs f hpre hsel]
  · intro m hm i hi w hw
    rw [pollTick_eq c msgs f hpre hsel] at hw
    have hw' : w = pollFold (c.last_seen_id.getD 0) (selectNew msgs c.last_seen_id) := by
      simpa using hw
    rw [hw']
    exact mem_le_pollFold hi _ hm _

/-- The configuration used by the C6 and C10 witnesses: forwarding on,
token and chat id set, mark 3, no keywords. -/
def witnessConfig : BotConfig :=
  { emptyConfig with
    forwarding_enabled := true
    active_sms_token := some "t"
    target_chat_id := some 1
    last_seen_id := some 3 }

/-- Witness for C6: batch with ids 4 and 6 where every forward fails;
the attempts and the single persisted mark are unchanged. -/
theorem C6_witness :
    (pollTick witnessConfig [msgOfId 4, msgOfId 6] (fun _ => false)).outcomes.map Prod.fst
        = (selectNew [msgOfId 4, msgOfId 6] witnessConfig.last_seen_id).filter
            (fun m => kwMatch m.content witnessConfig.keywords) ∧
    (pollTick witnessConfig [msgOfId 4, msgOfId 6] (fun _ => false)).outcomes.map Prod.fst
        = (pollTick witnessConfig [msgOfId 4, msgOfId 6] (fun _ => true)).outcomes.map Prod.fst ∧
    (pollTick witnessConfig [msgOfId 4, msgOfId 6] (fun _ => false)).persists
        = [pollFold (witnessConfig.last_seen_id.getD 0)
            (selectNew [msgOfId 4, msgOfId 6] witnessConfig.last_seen_id)] := by
  have h := C6_forward_failures witnessConfig [msgOfId 4, msgOfId 6]
    (fun _ => false) (fun _ => true) (by decide) (by decide)
  exact ⟨h.1, h.2.1, h.2.2.1⟩

/-- C10: deduplication is only against the high-water mark, never within a
batch: the forward attempts of a tick are (up to the sort) exactly the
batch entries that qualify and match the keywords, duplicates included. -/
theorem C10_duplicates_kept (c : BotConfig) (msgs : List Message) (f : Message → Bool)
    (hpre : preconditionsOk c = true) :
    ((pollTick c msgs f).outcomes.map Prod.fst).Perm
      (msgs.filter fun m => qualifies c.last_seen_id m && kwMatch m.content c.keywords) := by
  by_cases hsel : selectNew msgs c.last_seen_id = []
  · have hnone : ∀ m ∈ msgs, qualifies c.last_seen_id m = false := by
      intro m hmem
      have hmem' : m ∈ sortBatch msgs :=
        ((List.perm_insertionSort _ msgs).mem_iff).2 hmem
      by_cases hq : qualifies c.last_seen_id m = true
      · have : m ∈ selectNew msgs c.last_seen_id := List.mem_filter.mpr ⟨hmem', hq⟩
        rw [hsel] at this
        cases this
      · exact Bool.eq_false_iff.mpr hq
    have hfil : (msgs.filter fun m =>
        qualifies c.last_seen_id m && kwMatch m.content c.keywords) = [] := by
      rw [List.filter_eq_nil_iff]
      intro m hmem
      rw [hnone m hmem]
      simp
    rw [hfil]
    have : (pollTick c msgs f).outcomes = [] := by
      unfold pollTick
      rw [hpre]
      rcases msgs with _ | ⟨x, xs⟩
      · rfl
      · simp only [Bool.not_true, Bool.false_eq_true, if_false, List.isEmpty_cons]
        rw [hsel]
        rfl
    rw [this]
    rfl
  · rw [pollTick_eq c msgs f hpre hsel]
    simp only [List.map_map]
    rw [show ((fun p : Message × Bool => p.1) ∘ fun m => (m, f m)) = id from rfl]
    rw [List.map_id]
    unfold selectNew
    rw [List.filter_filter]
    have hperm := (List.perm_insertionSort
      (fun a b : Message => sortKey a ≤ sortKey b) msgs).filter
      (fun m => anyKwHit (c.keywords.map lowerStr) m.content && qualifies c.last_seen_id m)
    refine hperm.trans ?_
    have : (fun m => anyKwHit (c.keywords.map lowerStr) m.content
        && qualifies c.last_seen_id m)
        = fun m => qualifies c.last_seen_id m && kwMatch m.content c.keywords := by
      funext m
      rw [Bool.and_comm]
      rfl
    rw [this]

/-- Witness for C10: two identical entries with id 5, both above mark 3,
are both attempted. -/
theorem C10_witness :
    ((pollTick witnessConfig [msgOfId 5, msgOfId 5] (fun _ => true)).outcomes.map
        Prod.fst).Perm
      ([msgOfId 5, msgOfId 5].filter fun m =>
        qualifies witnessConfig.last_seen_id m && kwMatch m.content witnessConfig.keywords) :=
  C10_duplicates_kept witnessConfig [msgOfId 5, msgOfId 5] (fun _ => true) (by decide)

/- ---------------------------------------------------------------------
   C4 and C5: pending-input handling.
   --------------------------------------------------------------------- -/

/-- A chat-handle resolver that always fails, for concrete scenarios in
which it is never consulted. -/
def dummyResolve : String → Except String Int :=
  fun _ => Except.error ""

/-- C4 (amended): for the SelectToken and DeleteToken pending actions —
the two whose prompt keyboards carry the return button — the reserved
return-to-menu input cancels back to the menu (clears the pending mode)
and leaves the configuration unchanged. -/
theorem C4_return_cancel (c : BotConfig) (r : String → Except String Int) (m : Mode)
    (hm : m = Mode.selectSmsToken ∨ m = Mode.deleteSmsToken) :
    (handlePendingInput m returnMenuText c r).config = c ∧
    (handlePendingInput m returnMenuText c r).mode = none := by
  rcases hm with hm | hm <;> subst hm <;> exact ⟨rfl, rfl⟩

/-- Witness for C4 at a concrete configuration. -/
theorem C4_witness :
    (handlePendingInput Mode.selectSmsToken returnMenuText emptyConfig dummyResolve).config
        = emptyConfig ∧
    (handlePendingInput Mode.selectSmsToken returnMenuText emptyConfig
        dummyResolve).mode = none :=
  C4_return_cancel emptyConfig dummyResolve Mode.selectSmsToken (Or.inl rfl)

/-- Counterexample to C4 as stated: while awaiting an AddToken input, the
reserved return-to-menu text does not cancel — it is stored as a new token
and activated, mutating the configuration (src/bot.py lines 283-297 never
check for the reserved text). -/
theorem C4_counterexample :
    (handlePendingInput Mode.addSmsToken returnMenuText emptyConfig dummyResolve).config
        ≠ emptyConfig ∧
    (handlePendingInput Mode.addSmsToken returnMenuText emptyConfig
        dummyResolve).config.sms_tokens = [returnMenuText] ∧
    (handlePendingInput Mode.setKeywords returnMenuText emptyConfig
        dummyResolve).config.keywords = [returnMenuText] := by
  refine ⟨by decide, by decide, by decide⟩

/-- C5 (amended): setting keywords splits on the comma or full-width comma,
trims and drops empty entries, and stores the trimmed entries verbatim —
not lowercase-normalized: "foo, BAR" is stored as ["foo", "BAR"].  Content
"a Bar b" nevertheless matches, because the matcher lowercases both sides
at match time (src/bot.py lines 180, 186). -/
theorem C5_set_keywords (c : BotConfig) (r : String → Except String Int) :
    (handlePendingInput Mode.setKeywords "foo, BAR" c r).config.keywords
        = ["foo", "BAR"] ∧
    (handlePendingInput Mode.setKeywords "foo，BAR" c r).config.keywords
        = ["foo", "BAR"] ∧
    (handlePendingInput Mode.setKeywords " , ,, " c r).config.keywords = [] ∧
    (handlePendingInput Mode.setKeywords "foo, BAR" c r).mode = none ∧
    kwMatch "a Bar b" ["foo", "BAR"] = true :=
  ⟨rfl, rfl, rfl, rfl, by decide⟩

/-- Counterexample to C5 as stated: the keyword input "foo, BAR" is stored
as ["foo", "BAR"], not as the lowercase-normalized ["foo", "bar"] the claim
requires (line 317 strips but never lowercases). -/
theorem C5_counterexample :
    (handlePendingInput Mode.setKeywords "foo, BAR" emptyConfig dummyResolve).config.keywords
        = ["foo", "BAR"] ∧
    (handlePendingInput Mode.setKeywords "foo, BAR" emptyConfig
        dummyResolve).config.keywords ≠ ["foo", "bar"] := by
  refine ⟨by decide, by decide⟩

/- ---------------------------------------------------------------------
   C7, C8, C9: invariants over the mutating operations.
   --------------------------------------------------------------------- -/

theorem handlePendingInput_last_seen (m : Mode) (t : String) (c : BotConfig)
    (r : String → Except String Int) :
    (handlePendingInput m t c r).config.last_seen_id = c.last_seen_id := by
  cases m <;> simp only [handlePendingInput] <;> (repeat' split) <;> rfl

theorem pollTick_persists_cases (c : BotConfig) (msgs : List Message)
    (f : Message → Bool) :
    (pollTick c msgs f).persists = []
      ∨ (pollTick c msgs f).persists
          = [pollFold (c.last_seen_id.getD 0) (selectNew msgs c.last_seen_id)] := by
  by_cases hpre : preconditionsOk c = true
  · by_cases hsel : selectNew msgs c.last_seen_id = []
    · left
      unfold pollTick
      simp only [hpre, Bool.not_true, Bool.false_eq_true, if_false, hsel,
        List.isEmpty_nil, if_true]
      split <;> rfl
    · right
      rw [pollTick_eq c msgs f hpre hsel]
  · left
    unfold pollTick
    rw [Bool.not_eq_true] at hpre
    rw [hpre]
    rfl

theorem applyOp_mark_step (c : BotConfig) (op : Op) {v : Int}
    (h : c.last_seen_id = some v) :
    ∃ w, (applyOp c op).last_seen_id = some w ∧ v ≤ w := by
  cases op with
  | pending m t r =>
    exact ⟨v, by rw [applyOp, handlePendingInput_last_seen, h], le_refl v⟩
  | tick msgs f =>
    rcases pollTick_persists_cases c msgs f with hp | hp
    · refine ⟨v, ?_, le_refl v⟩
      simp only [applyOp, hp, List.foldl_nil]
      exact h
    · refine ⟨pollFold (c.last_seen_id.getD 0) (selectNew msgs c.last_seen_id), ?_, ?_⟩
      · simp only [applyOp, hp, List.foldl_cons, List.foldl_nil]
      · have hv : c.last_seen_id.getD 0 = v := by rw [h]; rfl
        rw [hv]
        exact le_pollFold _ v
  | startForwarding =>
    refine ⟨v, ?_, le_refl v⟩
    simp only [applyOp]
    split <;> exact h
  | stopForwarding => exact ⟨v, h, le_refl v⟩

/-- C7: the persisted high-water mark is monotonically non-decreasing:
over any sequence of configuration-mutating operations starting from a
configuration whose mark is set, the mark stays set and never decreases. -/
theorem C7_mark_monotone (c : BotConfig) (ops : List Op) (v : Int)
    (h : c.last_seen_id = some v) :
    ∃ w, (ops.foldl applyOp c).last_seen_id = some w ∧ v ≤ w := by
  induction ops generalizing c v with
  | nil => exact ⟨v, h, le_refl v⟩
  | cons op rest ih =>
    obtain ⟨w1, hw1, hvw1⟩ := applyOp_mark_step c op h
    obtain ⟨w2, hw2, hw12⟩ := ih (applyOp c op) w1 hw1
    exact ⟨w2, hw2, le_trans hvw1 hw12⟩

/-- Witness for C7: one failing-forward tick from mark 3 keeps a set,
non-decreased mark. -/
theorem C7_witness :
    ∃ w, ([Op.tick [msgOfId 4, msgOfId 6] (fun _ => false)].foldl applyOp
        witnessConfig).last_seen_id = some w ∧ (3 : Int) ≤ w :=
  C7_mark_monotone witnessConfig [Op.tick [msgOfId 4, msgOfId 6] (fun _ => false)] 3 rfl

theorem tokenInv_true_iff (c : BotConfig) :
    tokenInv c = true ↔ ∀ t, c.active_sms_token = some t → t ∈ c.sms_tokens := by
  unfold tokenInv
  cases hact : c.active_sms_token with
  | none => simp
  | some t =>
    rw [contains_iff_mem]
    constructor
    · intro hmem t' ht'
      rw [Option.some.injEq] at ht'
      rw [← ht']
      exact hmem
    · intro hall
      exact hall t rfl

theorem head?_mem_of_eq_some {l : List String} {x : String}
    (h : l.head? = some x) : x ∈ l := by
  obtain ⟨ys, hys⟩ := List.head?_eq_some_iff.1 h
  rw [hys]
  exact List.mem_cons_self x ys

theorem tokenInv_pending (c : BotConfig) (m : Mode) (t : String)
    (r : String → Except String Int) (h : tokenInv c = true) :
    tokenInv (handlePendingInput m t c r).config = true := by
  rw [tokenInv_true_iff] at h ⊢
  cases m with
  | addSmsToken =>
    simp only [handlePendingInput]
    split
    · exact h
    · intro t' ht'
      rw [Option.some.injEq] at ht'
      rw [← ht']
      by_cases hc : c.sms_tokens.contains (stripStr t) = true
      · simp only [hc, if_true]
        exact contains_iff_mem.1 hc
      · simp only [hc, if_false]
        exact List.mem_append_right _ (List.mem_singleton.2 rfl)
  | setChatId =>
    simp only [handlePendingInput]
    split <;> exact h
  | setKeywords =>
    simp only [handlePendingInput]
    exact h
  | selectSmsToken =>
    simp only [handlePendingInput]
    split
    · exact h
    · split
      · exact h
      · rename_i hcon
        intro t' ht'
        rw [Option.some.injEq] at ht'
        rw [← ht']
        rw [Bool.not_eq_true', Bool.not_eq_false] at hcon
        exact contains_iff_mem.1 hcon
  | deleteSmsToken =>
    simp only [handlePendingInput]
    split
    · exact h
    · split
      · exact h
      · intro t' ht'
        simp only at ht'
        by_cases hact : c.active_sms_token == some t
        · rw [if_pos hact] at ht'
          exact head?_mem_of_eq_some ht'
        · rw [if_neg hact] at ht'
          have hmem : t' ∈ c.sms_tokens := h t' ht'
          have hne : t' ≠ t := by
            intro heq
            apply hact
            rw [beq_iff_eq, ht', heq]
          exact List.mem_filter.mpr ⟨hmem, bne_iff_ne.2 hne⟩

theorem tokenInv_set_mark (c : BotConfig) (v : Int) :
    tokenInv { c with last_seen_id := some v } = tokenInv c := rfl

theorem tokenInv_step (c : BotConfig) (op : Op) (h : tokenInv c = true) :
    tokenInv (applyOp c op) = true := by
  cases op with
  | pending m t r => exact tokenInv_pending c m t r h
  | tick msgs f =>
    rcases pollTick_persists_cases c msgs f with hp | hp
    · simp only [applyOp, hp, List.foldl_nil]
      exact h
    · simp only [applyOp, hp, List.foldl_cons, List.foldl_nil, tokenInv_set_mark]
      exact h
  | startForwarding =>
    simp only [applyOp]
    split
    · rw [show tokenInv { c with forwarding_enabled := true } = tokenInv c from rfl]
      exact h
    · exact h
  | stopForwarding =>
    rw [show tokenInv (applyOp c Op.stopForwarding) = tokenInv c from rfl]
    exact h

/-- C8: every configuration-mutating operation preserves the invariant
that the active source token, when set, is a member of the token list;
hence any configuration read after any sequence of operations satisfies
it, provided the starting configuration did. -/
theorem C8_token_invariant (c : BotConfig) (ops : List Op)
    (h : tokenInv c = true) : tokenInv (ops.foldl applyOp c) = true := by
  induction ops generalizing c with
  | nil => exact h
  | cons op rest ih => exact ih (applyOp c op) (tokenInv_step c op h)

/-- Witness for C8: adding a token, then deleting it, then a tick — the
invariant holds at the end. -/
theorem C8_witness :
    tokenInv ([Op.pending Mode.addSmsToken "A" dummyResolve,
        Op.pending Mode.deleteSmsToken "A" dummyResolve,
        Op.tick [msgOfId 4] (fun _ => true)].foldl applyOp emptyConfig) = true :=
  C8_token_invariant emptyConfig
    [Op.pending Mode.addSmsToken "A" dummyResolve,
     Op.pending Mode.deleteSmsToken "A" dummyResolve,
     Op.tick [msgOfId 4] (fun _ => true)] (by decide)

/-- C9: deleting a token whose (non-reserved) input exactly matches a
listed token removes every copy of it from the list, clears the pending
mode, and reassigns the active token to the first remaining token — or to
none if the list becomes empty — exactly when the deleted token was the
active one. -/
theorem C9_delete_token (c : BotConfig) (r : String → Except String Int) (t : String)
    (hmem : c.sms_tokens.contains t = true) (hres : (t == returnMenuText) = false) :
    (handlePendingInput Mode.deleteSmsToken t c r).config.sms_tokens
        = c.sms_tokens.filter (fun x => x != t) ∧
    (handlePendingInput Mode.deleteSmsToken t c r).config.active_sms_token
        = (if c.active_sms_token == some t
            then (c.sms_tokens.filter fun x => x != t).head?
            else c.active_sms_token) ∧
    (handlePendingInput Mode.deleteSmsToken t c r).mode = none := by
  simp only [handlePendingInput, hres, Bool.false_eq_true, if_false, hmem,
    Bool.not_true, Bool.false_eq_true]
  exact ⟨by trivial, by trivial, by trivial⟩

/-- Source-token list ["A", "B"] with "A" active, for the C9 witness. -/
def configAB : BotConfig :=
  { emptyConfig with sms_tokens := ["A", "B"], active_sms_token := some "A" }

/-- Source-token list ["B"] with "B" active, for the C9 witness. -/
def configB : BotConfig :=
  { emptyConfig with sms_tokens := ["B"], active_sms_token := some "B" }

/-- Witness for C9, the spec's scenario: from ["A","B"] with "A" active,
deleting "A" activates "B"; deleting the last token "B" leaves no active
token. -/
theorem C9_witness :
    (handlePendingInput Mode.deleteSmsToken "A" configAB dummyResolve).config.active_sms_token
        = some "B" ∧
    (handlePendingInput Mode.deleteSmsToken "A" configAB dummyResolve).config.sms_tokens
        = ["B"] ∧
    (handlePendingInput Mode.deleteSmsToken "B" configB dummyResolve).config.active_sms_token
        = none := by
  have h1 := C9_delete_token configAB dummyResolve "A" (by decide) (by decide)
  have h2 := C9_delete_token configB dummyResolve "B" (by decide) (by decide)
  refine ⟨?_, ?_, ?_⟩
  · rw [h1.2.1]
    decide
  · rw [h1.1]
    decide
  · rw [h2.2.1]
    decide
